import Mathlib

/-!
Shallow embedding of the conversational-orchestration core of this repository
(`app/core/chatbot_core.py` and `app/core/advanced_features.py`), together
with proofs settling the frozen claims about it.

Modelling conventions:
* Python strings are Lean `String`s; `len` is `String.length` (code points).
* Machine time is an explicit `Nat` (seconds) parameter `now`; wall-clock
  does not advance inside a single call, so per-call durations are `0` in the
  pipeline model and arbitrary rationals in the standalone metrics model.
* The per-conversation relational store (`app/db/crud.py`) is a pair of
  in-order lists (messages, summaries); `create_message`/`create_summary`
  append, `get_conversation_messages` reads in order,
  `get_user_assistant_message_count` counts user/assistant rows, and
  `get_latest_summary` returns the most recently appended summary.
* `md5` in `create_messages_hash` is modelled as the identity on the
  canonical `json.dumps(..., sort_keys=True)` serialization: the hash is a
  pure function of that serialization, which is all any claim uses.
* The optional Redis backing store is a function
  `String → Except Unit (Option String)`: `.error` models a raising read,
  `.ok none` a configured store without the key, `.ok (some v)` a stored
  value (after the `json.loads` round trip).  Because the stored text is
  `json.dumps` output (never empty), the `if value:` truthiness test in
  `CacheManager.get` is equivalent to key presence.
-/

/-- One conversation message: the `{role, content}` pair used throughout
`chatbot_core.py` (timestamps are never read by the core logic). -/
structure Message where
  role : String
  content : String
deriving DecidableEq, Repr

/-- The relational store of a single conversation, as exposed by
`app/db/crud.py`: messages in insertion order plus summaries in insertion
order. -/
structure Db where
  msgs : List Message
  summaries : List String
deriving DecidableEq, Repr

/-- `crud.create_message`: appends a message row. -/
def create_message (m : Message) (db : Db) : Db :=
  { db with msgs := db.msgs ++ [m] }

/-- `crud.create_summary`: appends a summary row. -/
def create_summary (s : String) (db : Db) : Db :=
  { db with summaries := db.summaries ++ [s] }

/-- `crud.get_user_assistant_message_count`: counts only user/assistant
rows of the conversation. -/
def user_assistant_count (db : Db) : Nat :=
  (db.msgs.filter (fun m => m.role = "user" ∨ m.role = "assistant")).length

/-- `crud.get_latest_summary` (ordered by creation time descending, first):
the most recently appended summary, if any. -/
def get_latest_summary (db : Db) : Option String :=
  db.summaries.getLast?

/-! ### CacheManager (`advanced_features.py`, lines 48–108) -/

/-- One in-process cache slot: `{'value': ..., 'expires': ...}`. -/
structure CacheItem where
  value : String
  expires : Nat
deriving DecidableEq, Repr

/-- The in-process dict `memory_cache`, as an association list with
dict semantics (at most one live binding per key along all reachable
states; `mapInsert` replaces in place, `mapErase` deletes the binding). -/
abbrev CacheMap := List (String × CacheItem)

/-- Dict read: first binding of the key. -/
def mapLookup (k : String) : CacheMap → Option CacheItem
  | [] => none
  | (k', v) :: t => if k' = k then some v else mapLookup k t

/-- Dict write: replace the existing binding in place, or append. -/
def mapInsert (k : String) (v : CacheItem) : CacheMap → CacheMap
  | [] => [(k, v)]
  | (k', v') :: t => if k' = k then (k, v) :: t else (k', v') :: mapInsert k v t

/-- Dict delete (`del self.memory_cache[key]`): remove the binding. -/
def mapErase (k : String) : CacheMap → CacheMap
  | [] => []
  | (k', v') :: t => if k' = k then t else (k', v') :: mapErase k t

/-- `CacheManager` state: the memory map plus hit/miss counters and the
constructor's `default_ttl` (3600 in the source default). -/
structure CacheState where
  entries : CacheMap
  hits : Nat
  misses : Nat
  default_ttl : Nat
deriving DecidableEq, Repr

/-- A fresh `CacheManager(redis_url=None)`. -/
def emptyCache : CacheState :=
  { entries := [], hits := 0, misses := 0, default_ttl := 3600 }

/-- The optional Redis client: absent (`None`), or a read function that can
raise (`.error`), miss (`.ok none`) or return a stored value. -/
abbrev RedisClient := Option (String → Except Unit (Option String))

/-- The memory-map branch of `CacheManager.get`: present and unexpired
(`item['expires'] > time.time()`) is a hit returning the value; present but
expired deletes the entry and falls through to the miss accounting; absent
is a miss. -/
def memGetPath (now : Nat) (key : String) (c : CacheState) :
    Option String × CacheState :=
  match mapLookup key c.entries with
  | some item =>
    if now < item.expires then
      (some item.value, { c with hits := c.hits + 1 })
    else
      (none, { c with entries := mapErase key c.entries, misses := c.misses + 1 })
  | none => (none, { c with misses := c.misses + 1 })

/-- `CacheManager.get`: with a configured Redis client the read happens
first; a raising read is caught by the `except` handler which counts a miss
and returns `None` (the memory map is not consulted on that path); a Redis
miss falls through to the memory map.  Without Redis only the memory map is
consulted. -/
def cacheGet (redis : RedisClient) (now : Nat) (key : String) (c : CacheState) :
    Option String × CacheState :=
  match redis with
  | some r =>
    match r key with
    | .error _ => (none, { c with misses := c.misses + 1 })
    | .ok (some v) => (some v, { c with hits := c.hits + 1 })
    | .ok none => memGetPath now key c
  | none => memGetPath now key c

/-- `CacheManager.set`: `ttl = ttl or self.default_ttl` (so `None` and `0`
both fall back to the default), then `expires = now + ttl`.  With Redis
configured the write goes to Redis only; the memory write returns `True`. -/
def cacheSet (now : Nat) (key : String) (value : String) (ttl : Option Nat)
    (c : CacheState) : Bool × CacheState :=
  let effTtl := match ttl with
    | none => c.default_ttl
    | some t => if t = 0 then c.default_ttl else t
  (true, { c with entries := mapInsert key { value := value, expires := now + effTtl } c.entries })

/-- `CacheManager.get_stats`: hit/miss counters and the memory map size. -/
structure CacheStats where
  hits : Nat
  misses : Nat
  memory_cache_size : Nat
deriving DecidableEq, Repr

/-- `CacheManager.get_stats` (the `hit_rate_percent` display field is a pure
function of `hits`/`misses` and is not separately modelled). -/
def get_stats (c : CacheState) : CacheStats :=
  { hits := c.hits, misses := c.misses, memory_cache_size := c.entries.length }

/-! ### PerformanceMonitor (`advanced_features.py`, lines 110–156) -/

/-- `PerformanceMonitor` state: the latency ring buffer (a deque with
`maxlen = window_size`, most recent sample last), the monotone counters and
the concurrency depth, plus the construction-time `start_time`. -/
structure Metrics where
  response_times : List ℚ
  window_size : Nat
  error_count : Nat
  total_requests : Nat
  concurrent_requests : Nat
  start_time : ℚ
deriving DecidableEq, Repr

/-- A fresh `PerformanceMonitor(window_size=1000)` started at time 0. -/
def initMetrics : Metrics :=
  { response_times := [], window_size := 1000, error_count := 0,
    total_requests := 0, concurrent_requests := 0, start_time := 0 }

/-- `deque(maxlen=w).append`: drop the oldest sample when at capacity. -/
def ringAppend (w : Nat) (d : ℚ) (l : List ℚ) : List ℚ :=
  if w = 0 then []
  else if l.length < w then l ++ [d] else l.drop 1 ++ [d]

/-- The atomic bookkeeping steps of `measure_request`, at the lock
granularity of the source: `enter` is the on-entry block, `exitOk d` the
normal-exit `finally` block with elapsed duration `d`, and `exitErr d` the
error path (`error_count` incremented in the `except` block, then the same
`finally` block). -/
inductive MEvent where
  | enter
  | exitOk (d : ℚ)
  | exitErr (d : ℚ)
deriving DecidableEq, Repr

/-- Apply one `measure_request` bookkeeping step to the monitor state. -/
def applyEvent (e : MEvent) (m : Metrics) : Metrics :=
  match e with
  | .enter =>
    { m with concurrent_requests := m.concurrent_requests + 1,
             total_requests := m.total_requests + 1 }
  | .exitOk d =>
    { m with response_times := ringAppend m.window_size d m.response_times,
             concurrent_requests := m.concurrent_requests - 1 }
  | .exitErr d =>
    { m with error_count := m.error_count + 1,
             response_times := ringAppend m.window_size d m.response_times,
             concurrent_requests := m.concurrent_requests - 1 }

/-- An interleaved execution of several `measure_request` scopes over the
shared monitor: the lock serializes the individual blocks, so any
concurrent run is some sequence of atomic events. -/
def applyTrace (tr : List MEvent) (m : Metrics) : Metrics :=
  tr.foldl (fun m e => applyEvent e m) m

/-- A whole `measure_request` scope around an operation that either
succeeds or raises: enter, run `op`, exit on the matching path, and hand
the operation's outcome back to the caller unchanged (the `except` block
re-raises). -/
def measure_request (op : Except String String) (d : ℚ) (m : Metrics) :
    Except String String × Metrics :=
  let m1 := applyEvent .enter m
  match op with
  | .ok a => (.ok a, applyEvent (.exitOk d) m1)
  | .error e => (.error e, applyEvent (.exitErr d) m1)

/-- Number of `enter` events of a trace. -/
def countEnters : List MEvent → Nat
  | [] => 0
  | .enter :: t => countEnters t + 1
  | _ :: t => countEnters t

/-- Number of exit events (normal or error) of a trace. -/
def countExits : List MEvent → Nat
  | [] => 0
  | .enter :: t => countExits t
  | _ :: t => countExits t + 1

/-- Number of error exits of a trace. -/
def countErrs : List MEvent → Nat
  | [] => 0
  | .exitErr _ :: t => countErrs t + 1
  | _ :: t => countErrs t

/-- A trace is balanced from concurrency depth `c` when no exit happens
with nobody inside: exactly the traces realizable by interleaved
`measure_request` scopes. -/
def balancedFrom : Nat → List MEvent → Bool
  | _, [] => true
  | c, .enter :: t => balancedFrom (c + 1) t
  | c, _ :: t => decide (0 < c) && balancedFrom (c - 1) t

/-! #### `PerformanceMonitor.get_metrics` -/

/-- Python's `round` on an exact value: round half to even. -/
def pyRound (x : ℚ) : ℤ :=
  let f := Rat.floor x
  let r := x - f
  if r < 1/2 then f
  else if 1/2 < r then f + 1
  else if f % 2 = 0 then f else f + 1

/-- Python's `round(x, 2)`. -/
def pyRound2 (x : ℚ) : ℚ := (pyRound (x * 100) : ℚ) / 100

/-- Stable insertion of a sample into a sorted list (ties keep the earlier
sample first, matching `numpy.sort`'s stable order on equal keys). -/
def insertSorted (x : ℚ) : List ℚ → List ℚ
  | [] => [x]
  | y :: t => if x < y then x :: y :: t else y :: insertSorted x t

/-- Sort a snapshot of the ring buffer. -/
def sortQ (l : List ℚ) : List ℚ := l.foldr insertSorted []

/-- `numpy.mean` of a snapshot. -/
def listMean (l : List ℚ) : ℚ := l.sum / l.length

/-- The ceiling of a rational, written through `Rat.floor` via the identity
`ceil x = -floor (-x)`. -/
def ratCeil (x : ℚ) : ℤ := -Rat.floor (-x)

/-- `numpy.percentile(l, 95)` with the default linear interpolation: the
value at fractional position `0.95 * (n - 1)` of the sorted snapshot. -/
def percentile95 (l : List ℚ) : ℚ :=
  let a := sortQ l
  let n := a.length
  let h : ℚ := ((n : ℚ) - 1) * (19/20)
  let lo := (Rat.floor h).toNat
  let hi := (ratCeil h).toNat
  a.getD lo 0 + (h - Rat.floor h) * (a.getD hi 0 - a.getD lo 0)

/-- Modelled from the spec: the claimed percentile computation — the element
at index `floor(0.95 * n)` of the sorted snapshot (nearest-rank style).
Stated only to be compared against the source's `percentile95`. -/
def claimedP95 (l : List ℚ) : ℚ :=
  (sortQ l).getD ((Rat.floor ((l.length : ℚ) * (19/20))).toNat) 0

/-- The snapshot returned by `get_metrics`: the latency pair
`(avg_response_time_ms, p95_response_time_ms)` is present only when the
ring buffer holds at least one sample. -/
structure Snapshot where
  uptime_seconds : ℚ
  total_requests : Nat
  error_count : Nat
  error_rate_percent : ℚ
  concurrent_requests : Nat
  latency_ms : Option (ℚ × ℚ)
deriving DecidableEq, Repr

/-- `PerformanceMonitor.get_metrics` at wall-clock time `now`. -/
def get_metrics (now : ℚ) (m : Metrics) : Snapshot :=
  { uptime_seconds := pyRound2 (now - m.start_time),
    total_requests := m.total_requests,
    error_count := m.error_count,
    error_rate_percent :=
      pyRound2 ((m.error_count : ℚ) / (max m.total_requests 1 : Nat) * 100),
    concurrent_requests := m.concurrent_requests,
    latency_ms :=
      if m.response_times = [] then none
      else some (pyRound2 (listMean m.response_times * 1000),
                 pyRound2 (percentile95 m.response_times * 1000)) }

/-! ### ConversationStateManager (`advanced_features.py`, lines 158–174) -/

/-- The `ConversationPhase` enum. -/
inductive ConversationPhase where
  | greeting
  | information_gathering
  | problem_solving
  | casual_chat
  | wrap_up
  | archived
deriving DecidableEq, Repr

/-- The `.value` string of each `ConversationPhase` member. -/
def ConversationPhase.value : ConversationPhase → String
  | .greeting => "greeting"
  | .information_gathering => "info_gathering"
  | .problem_solving => "problem_solving"
  | .casual_chat => "casual_chat"
  | .wrap_up => "wrap_up"
  | .archived => "archived"

/-- Python `messages[-5:]`: the last `n` elements. -/
def lastN (n : Nat) (l : List α) : List α := l.drop (l.length - n)

/-- Python `str.lower()` (ASCII case folding suffices for the fixed
keyword lists). -/
def strLower (s : String) : String := String.mk (s.data.map Char.toLower)

/-- Python `pat in s`: substring containment. -/
def strContainsSub (s pat : String) : Bool :=
  (List.range (s.data.length + 1)).any
    (fun i => pat.data = ((s.data.drop i).take pat.data.length))

/-- The problem-indicating keyword list of `analyze_conversation_phase`. -/
def problemKeywords : List String := ["help", "problem", "issue"]

/-- The greeting keyword list of `analyze_conversation_phase`. -/
def greetingKeywords : List String := ["hello", "hi", "hey"]

/-- The `content_lower` scan text of `analyze_conversation_phase`: the
lowercased space-join of the contents of the last five messages. -/
def phaseScanText (messages : List Message) : String :=
  strLower (String.intercalate " " ((lastN 5 messages).map (·.content)))

/-- `any(kw in content_lower for kw in kws)`. -/
def hasAnyKeyword (kws : List String) (messages : List Message) : Bool :=
  kws.any (fun kw => strContainsSub (phaseScanText messages) kw)

/-- `ConversationStateManager.analyze_conversation_phase`: empty history is
`greeting`; otherwise the lowercased join of the last five contents is
scanned — any problem keyword wins first, then a greeting keyword together
with a total turn count of at most 2, else `information_gathering`. -/
def analyze_conversation_phase (messages : List Message) : ConversationPhase :=
  if messages = [] then .greeting
  else if hasAnyKeyword problemKeywords messages then .problem_solving
  else if hasAnyKeyword greetingKeywords messages ∧ messages.length ≤ 2 then
    .greeting
  else .information_gathering

/-! ### OpenAIProvider token estimation (`chatbot_core.py`, lines 96–106) -/

/-- `OpenAIProvider.count_tokens`: `len(text) // 4`. -/
def count_tokens (text : String) : Nat := text.length / 4

/-- `OpenAIProvider.count_messages_tokens`: per-message `len // 4` plus a
fixed overhead of 4. -/
def count_messages_tokens (messages : List Message) : Nat :=
  (messages.map (fun m => count_tokens m.content + 4)).sum

/-! ### PersonaManager (`chatbot_core.py`, lines 108–158) -/

/-- `PersonaManager.generate_system_prompt` (the `if summary:` and
`if context:` truthiness tests also skip empty strings). -/
def generate_system_prompt (persona : String) (context summary : Option String) :
    String :=
  let p := "PERSONA:\n" ++ persona ++ "\n\n"
  let p := p ++ (match summary with
    | some s => if s = "" then "" else "CONVERSATION SUMMARY:\n" ++ s ++ "\n\n"
    | none => "")
  let p := p ++ (match context with
    | some c => if c = "" then "" else "CONTEXT:\n" ++ c ++ "\n\n"
    | none => "")
  p ++ "INSTRUCTIONS:\nRespond in character according to the persona above. Maintain consistency with the conversation history and summary if provided."

/-! ### ContextManager (`chatbot_core.py`, lines 160–212), with the
constructor defaults `max_context_tokens = 3000`,
`summarize_threshold = 20`. -/

/-- The `ContextManager` default token budget. -/
def max_context_tokens : Nat := 3000

/-- The `ContextManager` default summarization threshold. -/
def summarize_threshold : Nat := 20

/-- `ContextManager.should_summarize`: the user+assistant row count is
positive and exactly divisible by the threshold. -/
def should_summarize (db : Db) : Bool :=
  let count := user_assistant_count db
  decide (0 < count) && decide (count % summarize_threshold = 0)

/-- `ContextManager.get_messages_for_summarization`: the last
`summarize_threshold` user/assistant messages of the history. -/
def get_messages_for_summarization (db : Db) : List Message :=
  lastN summarize_threshold
    (db.msgs.filter (fun m => m.role = "user" ∨ m.role = "assistant"))

/-- The `while message_dicts and count > max: pop(0)` loop of
`prepare_context_for_llm`: drop from the oldest end while the aggregate
estimate exceeds the budget. -/
def trimLoop : List Message → List Message
  | [] => []
  | m :: rest =>
    if max_context_tokens < count_messages_tokens (m :: rest) then trimLoop rest
    else m :: rest

/-- `ContextManager.prepare_context_for_llm`: non-system history trimmed to
the token budget, plus the latest summary. -/
def prepare_context_for_llm (db : Db) : List Message × Option String :=
  let message_dicts := db.msgs.filter (fun m => m.role ≠ "system")
  (trimLoop message_dicts, get_latest_summary db)

/-! ### MessageProcessor (`chatbot_core.py`, lines 214–307) -/

/-- Python's ASCII whitespace stripped by `str.strip()`. -/
def isPySpace (c : Char) : Bool :=
  c = ' ' || c = '\t' || c = '\n' || c = '\x0d' || c = '\x0b' || c = '\x0c'

/-- Python `str.strip()` on ASCII whitespace. -/
def pyStrip (s : String) : String :=
  String.mk (((s.data.dropWhile isPySpace).reverse.dropWhile isPySpace).reverse)

/-- `MessageProcessor.validate_input`: reject empty or whitespace-only
input, reject input longer than 2000 characters, accept the rest. -/
def validate_input (user_input : String) : Bool :=
  if user_input = "" ∨ pyStrip user_input = "" then false
  else if 2000 < user_input.length then false
  else true

/-- `MessageProcessor.generate_summary`: the fixed summarization prompt
sent to the generation collaborator (modelled over the oracle `gen`). -/
def generate_summary (gen : List Message → String) (messages : List Message) :
    String :=
  if messages = [] then "No messages to summarize."
  else
    let conversation_text :=
      String.intercalate "\n" (messages.map (fun m => m.role ++ ": " ++ m.content))
    let summary_prompt :=
      "Please provide a concise summary of this conversation that captures:\n1. Key topics discussed\n2. Important decisions or conclusions\n3. User preferences or specific requests\n4. Emotional tone and relationship dynamics\n\nConversation:\n"
        ++ conversation_text ++ "\n\nSummary:"
    gen [⟨"user", summary_prompt⟩]

/-- The result dict of `MessageProcessor.process_message`. -/
structure BasicResult where
  success : Bool
  response : Option String
  summary_created : Bool := false
  message_count : Nat := 0
  error : Option String := none
deriving DecidableEq, Repr

/-- The early-return failure value of `process_message` for invalid input. -/
def invalidInputResult : BasicResult :=
  { success := false, response := none,
    error := some "Invalid input: message is empty or too long" }

/-- `MessageProcessor.process_message`, the baseline pipeline: validate
first (returning the failure dict with the store untouched), then persist
the user turn, possibly summarize, window the history, build the prompt,
generate, persist the assistant turn and report.  The generation
collaborator is the pure oracle `gen`. -/
def process_message (gen : List Message → String) (persona : String)
    (user_input : String) (db : Db) : BasicResult × Db :=
  if validate_input user_input = false then
    (invalidInputResult, db)
  else
    let db1 := create_message ⟨"user", user_input⟩ db
    let db2 :=
      if should_summarize db1 ∧ get_messages_for_summarization db1 ≠ [] then
        create_summary (generate_summary gen (get_messages_for_summarization db1)) db1
      else db1
    let message_history := (prepare_context_for_llm db2).fst
    let latest_summary := (prepare_context_for_llm db2).snd
    let system_prompt := generate_system_prompt persona none latest_summary
    let llm_messages := Message.mk "system" system_prompt :: message_history
    let response := gen llm_messages
    let db3 := create_message ⟨"assistant", response⟩ db2
    ({ success := true, response := some response, summary_created := false,
       message_count := db3.msgs.length }, db3)

/-! ### EnhancedMessageProcessor (`advanced_features.py`, lines 199–272) -/

/-- The JSON string escaping relevant to `json.dumps`: backslash, quote and
the control characters that can appear in the prompts built here. -/
def jsonEscapeChar (c : Char) : String :=
  if c = '\\' then "\\\\"
  else if c = '\"' then "\\\""
  else if c = '\n' then "\\n"
  else if c = '\t' then "\\t"
  else if c = '\x0d' then "\\r"
  else String.mk [c]

/-- JSON-escape a string. -/
def jsonEscape (s : String) : String :=
  String.join (s.data.map jsonEscapeChar)

/-- `json.dumps(messages, sort_keys=True)`: each message dict serialized
with its keys in sorted order (`content` before `role`). -/
def dumpsMessages (messages : List Message) : String :=
  "[" ++ String.intercalate ", "
    (messages.map (fun m =>
      "\x7b\"content\": \"" ++ jsonEscape m.content
        ++ "\", \"role\": \"" ++ jsonEscape m.role ++ "\"\x7d")) ++ "]"

/-- `EnhancedMessageProcessor.create_messages_hash`: md5 of the canonical
serialization, modelled as the serialization itself (a pure function of the
message sequence, which is the only property the pipeline relies on). -/
def create_messages_hash (messages : List Message) : String :=
  dumpsMessages messages

/-- `EnhancedMessageProcessor.generate_state_aware_prompt`: the persona
system prompt with the current phase appended. -/
def generate_state_aware_prompt (persona : String) (phase : ConversationPhase)
    (summary : Option String) : String :=
  generate_system_prompt persona none summary
    ++ "\n\nCONVERSATION CONTEXT:\nCurrent Phase: " ++ phase.value

/-- The cache/generation-counter state threaded through
`generate_cached_response`; `genCount` counts invocations of the generation
collaborator. -/
structure GcrState where
  cache : CacheState
  genCount : Nat
deriving DecidableEq, Repr

/-- The first atomic phase of `generate_cached_response`, up to and
including its first `await`: read the cache and apply the
`if cached_response:` truthiness test (an empty cached string does not
count as a hit). -/
def gcrCheck (now : Nat) (key : String) (s : GcrState) :
    Option String × GcrState :=
  let (r, c') := cacheGet none now key s.cache
  match r with
  | some v => (if v = "" then none else some v, { s with cache := c' })
  | none => (none, { s with cache := c' })

/-- The second atomic phase of `generate_cached_response`: on a hit return
the cached response; on a miss invoke the generation collaborator and store
the result with the generation-specific ttl of 1800 seconds.  In the
asyncio execution the two phases of distinct requests may interleave
arbitrarily, because the cache read, the generation call and the cache
write are all `await` points. -/
def gcrFinish (gen : List Message → String) (now : Nat) (key : String)
    (messages : List Message) (checked : Option String) (s : GcrState) :
    String × GcrState :=
  match checked with
  | some v => (v, s)
  | none =>
    let response := gen messages
    let (_, c') := cacheSet now key response (some 1800) s.cache
    (response, { cache := c', genCount := s.genCount + 1 })

/-- `EnhancedMessageProcessor.generate_cached_response` as executed by a
single uninterrupted request: the two phases in sequence. -/
def generate_cached_response (gen : List Message → String) (now : Nat)
    (messages_hash : String) (messages : List Message) (s : GcrState) :
    String × GcrState :=
  let key := "response:" ++ messages_hash
  let (checked, s1) := gcrCheck now key s
  gcrFinish gen now key messages checked s1

/-- Whole-engine state for the enhanced pipeline: the conversation store,
the shared cache, the shared performance monitor, the generation-call
counter and the current wall-clock second. -/
structure EngineState where
  db : Db
  cache : CacheState
  metrics : Metrics
  genCount : Nat
  time : Nat
deriving DecidableEq, Repr

/-- A freshly constructed engine with empty store and cache. -/
def initEngine : EngineState :=
  { db := { msgs := [], summaries := [] }, cache := emptyCache,
    metrics := initMetrics, genCount := 0, time := 0 }

/-- The result dict of `process_message_enhanced` (the wall-clock display
field `processing_time_ms` and the `cache_stats` echo are derived data and
not separately modelled). -/
structure EnhResult where
  success : Bool
  response : Option String
  message_count : Nat := 0
  summary_created : Bool := false
  phase : Option String := none
  error : Option String := none
deriving DecidableEq, Repr

/-- `EnhancedMessageProcessor.process_message_enhanced`: the per-turn
pipeline.  Note the order of operations of the source: the user turn is
persisted unconditionally — `validate_input` is never called on this path —
then the cadence check runs on the store that already contains the new user
turn, then the prompt is built, fingerprinted and answered through the
cache, and finally the assistant turn is persisted.  The oracle `gen` is
total, so the `except` branch (which would produce a failure dict) is
unreachable in this model and the `measure_request` scope exits normally. -/
def process_message_enhanced (gen : List Message → String) (persona : String)
    (user_input : String) (s : EngineState) : EnhResult × EngineState :=
  let metrics1 := applyEvent .enter s.metrics
  let db1 := create_message ⟨"user", user_input⟩ s.db
  let messages := db1.msgs
  let phase := analyze_conversation_phase messages
  let summary_created :=
    should_summarize db1 && decide (get_messages_for_summarization db1 ≠ [])
  let db2 :=
    if summary_created then create_summary "Summary of previous messages." db1
    else db1
  let message_history := (prepare_context_for_llm db2).fst
  let latest_summary := (prepare_context_for_llm db2).snd
  let system_prompt := generate_state_aware_prompt persona phase latest_summary
  let llm_messages := Message.mk "system" system_prompt :: message_history
  let messages_hash := create_messages_hash llm_messages
  let gcr := generate_cached_response gen s.time messages_hash llm_messages
    { cache := s.cache, genCount := s.genCount }
  let response := gcr.fst
  let db3 := create_message ⟨"assistant", response⟩ db2
  let metrics2 := applyEvent (.exitOk 0) metrics1
  ({ success := true, response := some response,
     message_count := messages.length + 1, summary_created := summary_created,
     phase := some phase.value },
   { db := db3, cache := gcr.snd.cache, metrics := metrics2,
     genCount := gcr.snd.genCount, time := s.time })

/-- A sequence of enhanced turns against the same conversation, collecting
each turn's result dict. -/
def runTurns (gen : List Message → String) (persona : String)
    (inputs : List String) (s : EngineState) : List EnhResult × EngineState :=
  match inputs with
  | [] => ([], s)
  | i :: rest =>
    let step := process_message_enhanced gen persona i s
    let tail := runTurns gen persona rest step.snd
    (step.fst :: tail.fst, tail.snd)

/-! ## Helper lemmas about the dict model -/

theorem mapLookup_insert_self (k : String) (v : CacheItem) (m : CacheMap) :
    mapLookup k (mapInsert k v m) = some v := by
  induction m with
  | nil => simp [mapInsert, mapLookup]
  | cons p t ih =>
    obtain ⟨k', v'⟩ := p
    by_cases h : k' = k
    · simp [mapInsert, mapLookup, h]
    · simp [mapInsert, mapLookup, h, ih]

theorem mapLookup_eq_none_of_not_mem (k : String) (m : CacheMap)
    (h : k ∉ m.map Prod.fst) : mapLookup k m = none := by
  induction m with
  | nil => simp [mapLookup]
  | cons p t ih =>
    obtain ⟨k', v'⟩ := p
    simp only [List.map_cons, List.mem_cons] at h
    push_neg at h
    simp only [mapLookup, if_neg (Ne.symm h.1)]
    exact ih h.2

theorem mapLookup_erase_self (k : String) (m : CacheMap)
    (hnd : (m.map Prod.fst).Nodup) : mapLookup k (mapErase k m) = none := by
  induction m with
  | nil => simp [mapErase, mapLookup]
  | cons p t ih =>
    obtain ⟨k', v'⟩ := p
    simp only [List.map_cons, List.nodup_cons] at hnd
    by_cases h : k' = k
    · subst h
      simp only [mapErase, if_pos rfl]
      exact mapLookup_eq_none_of_not_mem _ _ hnd.1
    · simp only [mapErase, if_neg h, mapLookup, if_neg h]
      exact ih hnd.2

theorem length_mapErase_of_lookup (k : String) (m : CacheMap) (item : CacheItem)
    (hl : mapLookup k m = some item) :
    (mapErase k m).length + 1 = m.length := by
  induction m with
  | nil => simp [mapLookup] at hl
  | cons p t ih =>
    obtain ⟨k', v'⟩ := p
    by_cases h : k' = k
    · simp [mapErase, h]
    · simp only [mapLookup, if_neg h] at hl
      simp [mapErase, if_neg h, ih hl]

/-- Claim C4 (cache TTL correctness).  Over the in-process map (no external
store configured) with the constructor's positive default ttl: for every
key, value and ttl a get immediately after a set returns the value; once
`now >= expires_at` a get returns absent, removes the entry (so `stats` no
longer counts it) and counts a miss; and every get increments exactly one
of the hit or miss counters, according to its outcome. -/
theorem claim4_cache_ttl (c : CacheState) (k : String) (v : String)
    (ttl : Option Nat) (now later : Nat) (item : CacheItem)
    (hdt : 0 < c.default_ttl)
    (hnd : (c.entries.map Prod.fst).Nodup)
    (hlk : mapLookup k c.entries = some item) (hexp : item.expires ≤ later) :
    ((cacheGet none now k (cacheSet now k v ttl c).snd).fst = some v)
    ∧ ((cacheGet none later k c).fst = none
        ∧ mapLookup k (cacheGet none later k c).snd.entries = none
        ∧ (get_stats (cacheGet none later k c).snd).memory_cache_size + 1
            = (get_stats c).memory_cache_size
        ∧ (cacheGet none later k c).snd.misses = c.misses + 1
        ∧ (cacheGet none later k c).snd.hits = c.hits)
    ∧ (∀ (c₂ : CacheState) (k₂ : String) (t : Nat),
        ((cacheGet none t k₂ c₂).fst.isSome →
          (cacheGet none t k₂ c₂).snd.hits = c₂.hits + 1
            ∧ (cacheGet none t k₂ c₂).snd.misses = c₂.misses)
        ∧ ((cacheGet none t k₂ c₂).fst = none →
          (cacheGet none t k₂ c₂).snd.misses = c₂.misses + 1
            ∧ (cacheGet none t k₂ c₂).snd.hits = c₂.hits)) := by
  have hcounters : ∀ (c₂ : CacheState) (k₂ : String) (t : Nat),
      ((cacheGet none t k₂ c₂).fst.isSome →
        (cacheGet none t k₂ c₂).snd.hits = c₂.hits + 1
          ∧ (cacheGet none t k₂ c₂).snd.misses = c₂.misses)
      ∧ ((cacheGet none t k₂ c₂).fst = none →
        (cacheGet none t k₂ c₂).snd.misses = c₂.misses + 1
          ∧ (cacheGet none t k₂ c₂).snd.hits = c₂.hits) := by
    intro c₂ k₂ t
    simp only [cacheGet, memGetPath]
    constructor
    · intro hs
      rcases hm : mapLookup k₂ c₂.entries with _ | it
      · simp only [hm] at hs
        simp at hs
      · simp only [hm] at hs ⊢
        by_cases hexp₂ : t < it.expires
        · simp [hexp₂]
        · simp only [if_neg hexp₂] at hs
          simp at hs
    · intro hs
      rcases hm : mapLookup k₂ c₂.entries with _ | it
      · simp [hm]
      · simp only [hm] at hs ⊢
        by_cases hexp₂ : t < it.expires
        · simp only [if_pos hexp₂] at hs
          simp at hs
        · simp [hexp₂]
  refine ⟨?_, ⟨?_, ?_, ?_, ?_, ?_⟩, hcounters⟩
  · simp only [cacheGet, cacheSet, memGetPath, mapLookup_insert_self]
    rcases ttl with _ | t
    · simp [Nat.lt_add_of_pos_right hdt]
    · by_cases ht : t = 0
      · simp [ht, Nat.lt_add_of_pos_right hdt]
      · simp [ht, Nat.lt_add_of_pos_right (Nat.pos_of_ne_zero ht)]
  · simp [cacheGet, memGetPath, hlk, Nat.not_lt.mpr hexp]
  · simp [cacheGet, memGetPath, hlk, Nat.not_lt.mpr hexp,
      mapLookup_erase_self k c.entries hnd]
  · simp [cacheGet, memGetPath, hlk, Nat.not_lt.mpr hexp, get_stats,
      length_mapErase_of_lookup k c.entries item hlk]
  · simp [cacheGet, memGetPath, hlk, Nat.not_lt.mpr hexp]
  · simp [cacheGet, memGetPath, hlk, Nat.not_lt.mpr hexp]

/-! ## Claim C9: external-store fallback -/

/-- A memory cache state holding one unexpired entry, used to exhibit the
behaviour of `CacheManager.get` when the external store read raises. -/
def cacheWithK : CacheState :=
  { entries := [("k", { value := "v", expires := 100 })],
    hits := 0, misses := 0, default_ttl := 3600 }

/-- Claim C9, counterexample.  With an external store configured whose read
raises, a key that is present and unexpired in the in-process map is NOT
returned: the `except` handler counts a miss and returns absent without
consulting the map (the same state without the external store does return
the value). -/
theorem claim9_counterexample :
    (cacheGet (some (fun _ => .error ())) 0 "k" cacheWithK).fst = none
      ∧ (cacheGet none 0 "k" cacheWithK).fst = some "v"
      ∧ (cacheGet (some (fun _ => .error ())) 0 "k" cacheWithK).snd.misses
          = cacheWithK.misses + 1 := by
  decide

/-- Claim C9, amended.  The transparent fallback to the in-process map
happens when no external store is configured (construction-time absence or
connection failure leaves `redis_client = None`) and when a configured
store's read completes without a value; but when the configured store's
read raises, `get` catches the error, counts a miss and returns absent
without consulting the in-process map. -/
theorem claim9_amended (c : CacheState) (k : String) (item : CacheItem)
    (now : Nat) (store : String → Except Unit (Option String))
    (hlk : mapLookup k c.entries = some item) (hval : now < item.expires) :
    (cacheGet none now k c).fst = some item.value
    ∧ (store k = .ok none → (cacheGet (some store) now k c).fst = some item.value)
    ∧ (∀ e, store k = .error e →
        cacheGet (some store) now k c
          = (none, { c with misses := c.misses + 1 })) := by
  refine ⟨?_, ?_, ?_⟩
  · simp [cacheGet, memGetPath, hlk, hval]
  · intro hs
    simp [cacheGet, hs, memGetPath, hlk, hval]
  · intro e hs
    simp [cacheGet, hs]

/-! ## Claim C1: single-flight by content -/

/-- Claim C1, counterexample.  Two concurrent `process_turn` requests whose
built prompts fingerprint identically: in the asyncio interleaving in which
both requests complete the cache-check phase of `generate_cached_response`
(an `await` boundary) before either runs the generate-and-store phase, both
observe a miss and the generation collaborator is invoked twice within the
same second — there is no cross-request lock preventing this. -/
theorem claim1_counterexample :
    (let msgs := [Message.mk "user" "hi"]
     let gen := fun (_ : List Message) => "resp"
     let key := "response:" ++ create_messages_hash msgs
     let s0 : GcrState := { cache := emptyCache, genCount := 0 }
     let (chkA, s1) := gcrCheck 0 key s0
     let (chkB, s2) := gcrCheck 0 key s1
     let (_, s3) := gcrFinish gen 0 key msgs chkA s2
     let (_, s4) := gcrFinish gen 0 key msgs chkB s3
     s4.genCount = 2 ∧ 2 > 1) := by
  decide

/-- Claim C1, amended.  For sequential requests the single-flight-by-content
guarantee does hold: starting from a cache with no entry for the prompt's
fingerprint, two `generate_cached_response` calls with identical messages,
the second issued within the 1800-second generation ttl of the first and
with a nonempty generated response, invoke the generation collaborator
exactly once in total — the second call is a cache hit that skips
generation entirely and returns the cached response. -/
theorem claim1_amended (gen : List Message → String) (msgs : List Message)
    (t1 t2 : Nat) (c0 : CacheState) (g0 : Nat)
    (hresp : gen msgs ≠ "") (httl : t2 < t1 + 1800)
    (hkey : mapLookup ("response:" ++ create_messages_hash msgs) c0.entries = none) :
    (let s0 : GcrState := { cache := c0, genCount := g0 }
     let (r1, s1) := generate_cached_response gen t1 (create_messages_hash msgs) msgs s0
     let (r2, s2) := generate_cached_response gen t2 (create_messages_hash msgs) msgs s1
     r1 = gen msgs ∧ r2 = gen msgs ∧ s1.genCount = g0 + 1 ∧ s2.genCount = g0 + 1) := by
  simp only [generate_cached_response, gcrCheck, gcrFinish, cacheGet, memGetPath,
    cacheSet, hkey]
  simp only [mapLookup_insert_self, httl, if_pos, hresp]
  simp [if_neg hresp, httl]

/-! ## Claim C7: phase classification -/

theorem lastN_length (n : Nat) (l : List α) :
    (lastN n l).length = l.length - (l.length - n) := by
  simp [lastN]

theorem lastN_eq_nil_iff (n : Nat) (l : List α) (hn : 0 < n) :
    lastN n l = [] ↔ l = [] := by
  constructor
  · intro h
    have := lastN_length n l
    rw [h] at this
    simp at this
    rcases l with _ | ⟨a, t⟩
    · rfl
    · exfalso
      simp at this
      omega
  · intro h
    simp [h, lastN]

/-- Claim C7 (phase classification).  `analyze_conversation_phase` is a
pure, deterministic function of the last five turns; its rules apply in
order with first-match precedence (problem keywords, then greeting keyword
with at most two total turns, then the default); the empty history is
`greeting`; and the three boundary examples of the claim hold. -/
theorem claim7_phase_classification :
    (∀ m1 m2 : List Message, lastN 5 m1 = lastN 5 m2 →
        analyze_conversation_phase m1 = analyze_conversation_phase m2)
    ∧ (∀ msgs : List Message, msgs ≠ [] →
        hasAnyKeyword problemKeywords msgs = true →
        analyze_conversation_phase msgs = .problem_solving)
    ∧ (∀ msgs : List Message, msgs ≠ [] →
        hasAnyKeyword problemKeywords msgs = false →
        hasAnyKeyword greetingKeywords msgs = true → msgs.length ≤ 2 →
        analyze_conversation_phase msgs = .greeting)
    ∧ (∀ msgs : List Message, msgs ≠ [] →
        hasAnyKeyword problemKeywords msgs = false →
        (hasAnyKeyword greetingKeywords msgs = false ∨ 2 < msgs.length) →
        analyze_conversation_phase msgs = .information_gathering)
    ∧ analyze_conversation_phase [] = .greeting
    ∧ analyze_conversation_phase [⟨"user", "hi"⟩] = .greeting
    ∧ analyze_conversation_phase
        [⟨"user", "hi"⟩, ⟨"assistant", "hello"⟩, ⟨"user", "I have a problem"⟩]
      = .problem_solving := by
  refine ⟨?_, ?_, ?_, ?_, by decide, by decide, by decide⟩
  · intro m1 m2 h
    have hlen : m1.length - (m1.length - 5) = m2.length - (m2.length - 5) := by
      have h1 := lastN_length 5 m1
      have h2 := lastN_length 5 m2
      rw [h] at h1
      omega
    by_cases hm1 : m1 = []
    · have hm2 : m2 = [] := by
        rw [← lastN_eq_nil_iff 5 m2 (by omega), ← h, hm1]
        simp [lastN]
      simp [hm1, hm2]
    · have hm2 : m2 ≠ [] := by
        intro hc
        exact hm1 (by
          rw [← lastN_eq_nil_iff 5 m1 (by omega), h, hc]
          simp [lastN])
      have hiff : m1.length ≤ 2 ↔ m2.length ≤ 2 := by
        have hl1 : m1.length ≠ 0 := by simpa [List.length_eq_zero] using hm1
        have hl2 : m2.length ≠ 0 := by simpa [List.length_eq_zero] using hm2
        omega
      have hscan : phaseScanText m1 = phaseScanText m2 := by
        simp [phaseScanText, h]
      have hkw : ∀ kws, hasAnyKeyword kws m1 = hasAnyKeyword kws m2 := by
        intro kws
        simp [hasAnyKeyword, hscan]
      simp only [analyze_conversation_phase, if_neg hm1, if_neg hm2, hkw]
      by_cases hg : hasAnyKeyword greetingKeywords m2 = true
      · by_cases hle : m1.length ≤ 2
        · simp [hg, hle, hiff.mp hle]
        · have hle2 : ¬ m2.length ≤ 2 := fun hc => hle (hiff.mpr hc)
          simp [hg, hle, hle2]
      · simp [Bool.not_eq_true] at hg
        simp [hg]
  · intro msgs hne hp
    simp [analyze_conversation_phase, hne, hp]
  · intro msgs hne hp hg hle
    simp [analyze_conversation_phase, hne, hp, hg, hle]
  · intro msgs hne hp hcase
    rcases hcase with hg | hgt
    · simp [analyze_conversation_phase, hne, hp, hg]
    · simp [analyze_conversation_phase, hne, hp, Nat.not_le.mpr hgt]

/-! ## Claim C8: token-budget windowing -/

theorem trimLoop_spec (l : List Message) :
    (∃ k, trimLoop l = l.drop k)
      ∧ count_messages_tokens (trimLoop l) ≤ max_context_tokens := by
  induction l with
  | nil =>
    exact ⟨⟨0, rfl⟩, by simp [trimLoop, count_messages_tokens, max_context_tokens]⟩
  | cons m rest ih =>
    by_cases h : max_context_tokens < count_messages_tokens (m :: rest)
    · obtain ⟨⟨k, hk⟩, hle⟩ := ih
      refine ⟨⟨k + 1, ?_⟩, ?_⟩
      · simp [trimLoop, h, hk]
      · simp [trimLoop, h, hle]
    · refine ⟨⟨0, ?_⟩, ?_⟩
      · simp [trimLoop, h]
      · simp only [trimLoop, if_neg h]
        omega

/-- Claim C8 (token-budget windowing).  For every conversation history the
prompt context is a suffix of the non-system history (whole messages are
trimmed from the oldest end, none is truncated mid-message: every retained
message is literally a message of the non-system history), its aggregate
token estimate (`len(content) // 4` plus a per-message overhead of 4) is at
most the 3000-token budget, and the system prompt always stays at the head
of the prompt finally sent to generation, untouched by the trimming. -/
theorem claim8_token_budget (db : Db) (persona : String) :
    (∃ k, (prepare_context_for_llm db).fst
        = (db.msgs.filter (fun m => m.role ≠ "system")).drop k)
    ∧ count_messages_tokens (prepare_context_for_llm db).fst ≤ max_context_tokens
    ∧ (∀ m ∈ (prepare_context_for_llm db).fst,
        m ∈ db.msgs.filter (fun m => m.role ≠ "system"))
    ∧ (Message.mk "system"
          (generate_system_prompt persona none (prepare_context_for_llm db).snd)
        :: (prepare_context_for_llm db).fst).head?
      = some (Message.mk "system"
          (generate_system_prompt persona none (prepare_context_for_llm db).snd)) := by
  obtain ⟨⟨k, hk⟩, hle⟩ := trimLoop_spec (db.msgs.filter (fun m => m.role ≠ "system"))
  refine ⟨⟨k, ?_⟩, ?_, ?_, rfl⟩
  · simpa [prepare_context_for_llm] using hk
  · simpa [prepare_context_for_llm] using hle
  · intro m hm
    simp only [prepare_context_for_llm] at hm
    rw [hk] at hm
    exact List.mem_of_mem_drop hm

/-! ## Claim C5: metrics measurement contract -/

theorem applyTrace_total (tr : List MEvent) :
    ∀ m : Metrics,
      (applyTrace tr m).total_requests = m.total_requests + countEnters tr := by
  induction tr with
  | nil => intro m; simp [applyTrace, countEnters]
  | cons e t ih =>
    intro m
    have hTr : applyTrace (e :: t) m = applyTrace t (applyEvent e m) := rfl
    rw [hTr, ih]
    rcases e with _ | d | d
    · have : (applyEvent MEvent.enter m).total_requests = m.total_requests + 1 := rfl
      rw [this]
      simp [countEnters]
      omega
    · rfl
    · rfl

theorem applyTrace_errors (tr : List MEvent) :
    ∀ m : Metrics,
      (applyTrace tr m).error_count = m.error_count + countErrs tr := by
  induction tr with
  | nil => intro m; simp [applyTrace, countErrs]
  | cons e t ih =>
    intro m
    have hTr : applyTrace (e :: t) m = applyTrace t (applyEvent e m) := rfl
    rw [hTr, ih]
    rcases e with _ | d | d
    · rfl
    · rfl
    · have : (applyEvent (MEvent.exitErr d) m).error_count = m.error_count + 1 := rfl
      rw [this]
      simp [countErrs]
      omega

theorem applyTrace_concurrent (tr : List MEvent) :
    ∀ m : Metrics, balancedFrom m.concurrent_requests tr = true →
      (applyTrace tr m).concurrent_requests + countExits tr
        = m.concurrent_requests + countEnters tr := by
  induction tr with
  | nil => intro m _; simp [applyTrace, countEnters, countExits]
  | cons e t ih =>
    intro m hb
    have hTr : applyTrace (e :: t) m = applyTrace t (applyEvent e m) := rfl
    rcases e with _ | d | d
    · have hstep : (applyEvent MEvent.enter m).concurrent_requests
          = m.concurrent_requests + 1 := rfl
      have hb' : balancedFrom (applyEvent MEvent.enter m).concurrent_requests t
          = true := by
        rw [hstep]
        exact hb
      have hrec := ih (applyEvent MEvent.enter m) hb'
      rw [hstep] at hrec
      rw [hTr]
      simp only [countEnters, countExits]
      omega
    · simp only [balancedFrom, Bool.and_eq_true, decide_eq_true_eq] at hb
      have hstep : (applyEvent (MEvent.exitOk d) m).concurrent_requests
          = m.concurrent_requests - 1 := rfl
      have hb' : balancedFrom (applyEvent (MEvent.exitOk d) m).concurrent_requests t
          = true := by
        rw [hstep]
        exact hb.2
      have hrec := ih (applyEvent (MEvent.exitOk d) m) hb'
      rw [hstep] at hrec
      rw [hTr]
      simp only [countEnters, countExits]
      have h0 := hb.1
      omega
    · simp only [balancedFrom, Bool.and_eq_true, decide_eq_true_eq] at hb
      have hstep : (applyEvent (MEvent.exitErr d) m).concurrent_requests
          = m.concurrent_requests - 1 := rfl
      have hb' : balancedFrom (applyEvent (MEvent.exitErr d) m).concurrent_requests t
          = true := by
        rw [hstep]
        exact hb.2
      have hrec := ih (applyEvent (MEvent.exitErr d) m) hb'
      rw [hstep] at hrec
      rw [hTr]
      simp only [countEnters, countExits]
      have h0 := hb.1
      omega

/-- Claim C5 (metrics measurement contract).  A `measure_request` scope
increments `concurrent_requests` and `total_requests` on entry; on an error
exit it additionally increments `error_count` and re-signals the error
unchanged (never swallowing it); on every exit it decrements
`concurrent_requests` and appends the elapsed duration to the ring buffer.
Consequently, for any interleaved execution of scopes over a fresh monitor
(any balanced event trace) in which every scope that entered has exited,
`total_requests` equals the number of scopes, `error_count` equals the
number of failing scopes, and `concurrent_requests` is back to zero. -/
theorem claim5_metrics_measurement (op : Except String String) (d : ℚ)
    (m : Metrics) (tr : List MEvent)
    (hb : balancedFrom 0 tr = true) (hdone : countEnters tr = countExits tr) :
    ((measure_request op d m).fst = op
      ∧ (measure_request op d m).snd.total_requests = m.total_requests + 1
      ∧ (measure_request op d m).snd.concurrent_requests = m.concurrent_requests
      ∧ (measure_request op d m).snd.error_count
          = m.error_count + (match op with | .ok _ => 0 | .error _ => 1)
      ∧ (measure_request op d m).snd.response_times
          = ringAppend m.window_size d m.response_times)
    ∧ ((applyTrace tr initMetrics).total_requests = countEnters tr
      ∧ (applyTrace tr initMetrics).error_count = countErrs tr
      ∧ (applyTrace tr initMetrics).concurrent_requests = 0) := by
  constructor
  · rcases op with e | a
    · exact ⟨rfl, rfl, rfl, rfl, rfl⟩
    · exact ⟨rfl, rfl, rfl, rfl, rfl⟩
  · have h0c : initMetrics.concurrent_requests = 0 := rfl
    have h0t : initMetrics.total_requests = 0 := rfl
    have h0e : initMetrics.error_count = 0 := rfl
    have htot := applyTrace_total tr initMetrics
    have herr := applyTrace_errors tr initMetrics
    have hcon := applyTrace_concurrent tr initMetrics (by rw [h0c]; exact hb)
    rw [h0t] at htot
    rw [h0e] at herr
    rw [h0c] at hcon
    exact ⟨by omega, by omega, by omega⟩

/-! ## Claim C6: metrics snapshot computation -/

theorem ratFloor_eq_intFloor (q : ℚ) : Rat.floor q = ⌊q⌋ := rfl

theorem ratFloor_of_bounds (q : ℚ) (z : ℤ) (h1 : (z : ℚ) ≤ q)
    (h2 : ¬ ((z + 1 : ℤ) : ℚ) ≤ q) : Rat.floor q = z := by
  have hl : z ≤ Rat.floor q := Rat.le_floor.mpr h1
  have hu : ¬ (z + 1 ≤ Rat.floor q) := fun hc => h2 (Rat.le_floor.mp hc)
  omega

theorem pyRound_intCast (z : ℤ) : pyRound (z : ℚ) = z := by
  have hf : Rat.floor ((z : ℤ) : ℚ) = z :=
    ratFloor_of_bounds _ z (le_refl _) (by
      intro hc
      have : ((z : ℚ) + 1) ≤ (z : ℚ) := by push_cast at hc ⊢; linarith
      linarith)
  simp only [pyRound, hf]
  norm_num

theorem pyRound2_of_mul_hundred (q : ℚ) (z : ℤ) (h : q * 100 = (z : ℚ)) :
    pyRound2 q = (z : ℚ) / 100 := by
  simp only [pyRound2, h, pyRound_intCast]

theorem sortQ_pair : sortQ [(0 : ℚ), 1] = [0, 1] := by
  norm_num [sortQ, insertSorted]

/-- The two-sample monitor state exhibiting the percentile divergence. -/
def metricsTwo : Metrics :=
  { response_times := [0, 1], window_size := 1000, error_count := 0,
    total_requests := 2, concurrent_requests := 0, start_time := 0 }

theorem percentile95_pair : percentile95 [(0 : ℚ), 1] = 19/20 := by
  have hfl : Rat.floor ((19 : ℚ)/20) = 0 :=
    ratFloor_of_bounds _ 0 (by norm_num) (by norm_num)
  have hce : ratCeil ((19 : ℚ)/20) = 1 := by
    have hneg : Rat.floor (-((19 : ℚ)/20)) = -1 :=
      ratFloor_of_bounds _ (-1) (by norm_num) (by norm_num)
    simp [ratCeil, hneg]
  simp only [percentile95, sortQ_pair]
  norm_num [hfl, hce]

/-- Claim C6, counterexample.  With the two samples `[0, 1]` in the ring
buffer, `get_metrics` reports `p95_response_time_ms = 950` (numpy linear
interpolation at position `0.95 * (n-1)`), while the element at index
`floor(0.95 * n) = 1` of the sorted snapshot would give `1000`. -/
theorem claim6_counterexample :
    (get_metrics 0 metricsTwo).latency_ms = some (500, 950)
      ∧ pyRound2 (claimedP95 metricsTwo.response_times * 1000) = 1000
      ∧ (950 : ℚ) ≠ 1000 := by
  have h1 : pyRound2 (listMean [(0 : ℚ), 1] * 1000) = 500 := by
    have hmean : listMean [(0 : ℚ), 1] = 1/2 := by
      norm_num [listMean]
    rw [hmean, pyRound2_of_mul_hundred _ 50000 (by norm_num)]
    norm_num
  have h2 : pyRound2 (percentile95 [(0 : ℚ), 1] * 1000) = 950 := by
    rw [percentile95_pair, pyRound2_of_mul_hundred _ 95000 (by norm_num)]
    norm_num
  refine ⟨?_, ?_, by norm_num⟩
  · have hne : metricsTwo.response_times = [(0 : ℚ), 1] := rfl
    simp only [get_metrics, hne]
    rw [if_neg (by simp)]
    rw [h1, h2]
  · have hcl : claimedP95 [(0 : ℚ), 1] = 1 := by
      have hfl : Rat.floor ((19 : ℚ)/10) = 1 :=
        ratFloor_of_bounds _ 1 (by norm_num) (by norm_num)
      simp only [claimedP95, sortQ_pair]
      norm_num [hfl]
    show pyRound2 (claimedP95 [(0 : ℚ), 1] * 1000) = 1000
    rw [hcl, pyRound2_of_mul_hundred _ 100000 (by norm_num)]
    norm_num

theorem insertSorted_length (x : ℚ) (l : List ℚ) :
    (insertSorted x l).length = l.length + 1 := by
  induction l with
  | nil => simp [insertSorted]
  | cons y t ih =>
    by_cases h : x < y
    · simp [insertSorted, h]
    · simp [insertSorted, h, ih]

theorem sortQ_length (l : List ℚ) : (sortQ l).length = l.length := by
  induction l with
  | nil => simp [sortQ]
  | cons x t ih =>
    simp only [sortQ, List.foldr_cons] at ih ⊢
    rw [insertSorted_length, ih]
    simp

/-- Claim C6, amended.  `get_metrics` omits the latency fields exactly when
the ring buffer is empty and reports
`error_rate_percent = round(100 * error_count / max(total_requests, 1), 2)`;
but with `n > 0` samples `p95_response_time_ms` is numpy's
linear-interpolated 95th percentile at fractional position `0.95 * (n - 1)`
of the stably sorted snapshot — in particular, whenever that position is an
integer `k` (so no interpolation happens), the reported value is the
element at index `k`, not the element at index `floor(0.95 * n)` of the
claim. -/
theorem claim6_amended (m : Metrics) (now : ℚ) (k : Nat)
    (hn : m.response_times ≠ [])
    (hk : 19 * (m.response_times.length - 1) = 20 * k) :
    (∀ (m' : Metrics) (t : ℚ),
        ((get_metrics t m').latency_ms = none ↔ m'.response_times = []))
    ∧ (∀ (m' : Metrics) (t : ℚ),
        (get_metrics t m').error_rate_percent
          = pyRound2 ((m'.error_count : ℚ) / (max m'.total_requests 1 : Nat) * 100))
    ∧ (get_metrics now m).latency_ms
        = some (pyRound2 (listMean m.response_times * 1000),
                pyRound2 ((sortQ m.response_times).getD k 0 * 1000)) := by
  refine ⟨?_, fun m' t => rfl, ?_⟩
  · intro m' t
    simp only [get_metrics]
    by_cases h : m'.response_times = []
    · simp [h]
    · simp [h]
  · have hlen : (sortQ m.response_times).length = m.response_times.length :=
      sortQ_length _
    have hpos : 1 ≤ m.response_times.length := by
      rcases hmm : m.response_times with _ | ⟨a, t⟩
      · exact absurd hmm hn
      · simp
    have hcast : ((m.response_times.length - 1 : ℕ) : ℚ) * (19/20) = (k : ℚ) := by
      have hq := congrArg (fun n : ℕ => (n : ℚ)) hk
      push_cast at hq
      linarith
    have hh : (((sortQ m.response_times).length : ℚ) - 1) * (19/20) = (k : ℚ) := by
      rw [hlen, show ((m.response_times.length : ℚ) - 1)
          = ((m.response_times.length - 1 : ℕ) : ℚ) by push_cast [hpos]; ring]
      exact hcast
    have hfl : Rat.floor ((((sortQ m.response_times).length : ℚ) - 1) * (19/20))
        = (k : ℤ) := by
      rw [hh]
      refine ratFloor_of_bounds _ _ (by push_cast; linarith) ?_
      push_cast
      linarith
    have hflk : Rat.floor ((k : ℕ) : ℚ) = (k : ℤ) :=
      ratFloor_of_bounds _ _ (by push_cast; linarith) (by push_cast; linarith)
    have hcei : ratCeil ((k : ℕ) : ℚ) = (k : ℤ) := by
      have hnegk : Rat.floor (-((k : ℕ) : ℚ)) = -(k : ℤ) :=
        ratFloor_of_bounds _ _ (by push_cast; linarith) (by push_cast; linarith)
      simp [ratCeil, hnegk]
    have hper : percentile95 m.response_times = (sortQ m.response_times).getD k 0 := by
      simp only [percentile95, hh, hflk, hcei, Int.toNat_natCast]
      push_cast
      ring
    simp only [get_metrics, if_neg hn, hper]

/-! ## Helper lemmas about the enhanced pipeline -/

theorem ite_db_msgs (c : Prop) [Decidable c] (x : String) (d : Db) :
    (if c then create_summary x d else d).msgs = d.msgs := by
  split <;> rfl

/-- Structure of one enhanced turn: it always succeeds, its
`summary_created` flag is exactly the cadence test evaluated on the store
that already contains the new user turn, and it appends exactly the user
turn and one assistant turn to the store. -/
theorem enhanced_msgs (gen : List Message → String) (persona u : String)
    (st : EngineState) :
    (process_message_enhanced gen persona u st).snd.db.msgs
      = st.db.msgs ++ [Message.mk "user" u, Message.mk "assistant"
          ((process_message_enhanced gen persona u st).fst.response.getD "")] := by
  simp only [process_message_enhanced, create_message, ite_db_msgs]
  simp

theorem enhanced_result (gen : List Message → String) (persona u : String)
    (st : EngineState) :
    (process_message_enhanced gen persona u st).fst.success = true
    ∧ (process_message_enhanced gen persona u st).fst.summary_created
        = (should_summarize (create_message ⟨"user", u⟩ st.db)
            && decide (get_messages_for_summarization
                (create_message ⟨"user", u⟩ st.db) ≠ []))
    ∧ ∃ resp, (process_message_enhanced gen persona u st).snd.db.msgs
        = st.db.msgs ++ [Message.mk "user" u, Message.mk "assistant" resp] := by
  exact ⟨rfl, rfl, _, enhanced_msgs gen persona u st⟩

theorem user_assistant_count_append_user (db : Db) (u : String) :
    user_assistant_count (create_message ⟨"user", u⟩ db)
      = user_assistant_count db + 1 := by
  simp [user_assistant_count, create_message, List.filter_append]

/-- One enhanced turn of an even-count store creates no summary (the
cadence check sees the odd count that includes the just-persisted user
turn) and leaves the count even again (two turns appended). -/
theorem enhanced_no_summary_step (gen : List Message → String)
    (persona u : String) (st : EngineState)
    (heven : user_assistant_count st.db % 2 = 0) :
    (process_message_enhanced gen persona u st).fst.summary_created = false
    ∧ user_assistant_count (process_message_enhanced gen persona u st).snd.db
        = user_assistant_count st.db + 2 := by
  obtain ⟨hsucc, hflag, resp, hmsgs⟩ := enhanced_result gen persona u st
  constructor
  · rw [hflag]
    have hcnt := user_assistant_count_append_user st.db u
    have hmod : ¬ (user_assistant_count (create_message ⟨"user", u⟩ st.db)
        % summarize_threshold = 0) := by
      rw [hcnt]
      simp only [summarize_threshold]
      omega
    simp [should_summarize, hmod]
  · simp [user_assistant_count, hmsgs, List.filter_append]

/-- Over any input sequence the enhanced pipeline starting from an
even-count store never reports `summary_created = true`, and each turn adds
exactly two user/assistant rows. -/
theorem runTurns_no_summary (gen : List Message → String) (persona : String)
    (inputs : List String) :
    ∀ st : EngineState, user_assistant_count st.db % 2 = 0 →
      (∀ r ∈ (runTurns gen persona inputs st).fst, r.summary_created = false)
      ∧ user_assistant_count (runTurns gen persona inputs st).snd.db
          = user_assistant_count st.db + 2 * inputs.length := by
  induction inputs with
  | nil =>
    intro st h
    exact ⟨by simp [runTurns], by simp [runTurns]⟩
  | cons i rest ih =>
    intro st h
    have hstep := enhanced_no_summary_step gen persona i st h
    have hrec := ih (process_message_enhanced gen persona i st).snd
      (by rw [hstep.2]; omega)
    constructor
    · intro r hr
      simp only [runTurns, List.mem_cons] at hr
      rcases hr with rfl | hr
      · exact hstep.1
      · exact hrec.1 r hr
    · show user_assistant_count
          (runTurns gen persona rest (process_message_enhanced gen persona i st).snd).snd.db
        = user_assistant_count st.db + 2 * (i :: rest).length
      rw [hrec.2, hstep.2]
      simp [List.length_cons]
      ring

theorem runTurns_length (gen : List Message → String) (persona : String)
    (inputs : List String) :
    ∀ st : EngineState,
      (runTurns gen persona inputs st).fst.length = inputs.length := by
  induction inputs with
  | nil => intro st; simp [runTurns]
  | cons i rest ih =>
    intro st
    simp [runTurns, ih]

/-! ## Claim C3: summarization cadence -/

/-- Claim C3, counterexample.  Ten consecutive successful turns from an
empty conversation bring the user+assistant count to exactly 20, yet no
turn — in particular not the tenth, whose assistant reply is the 20th
user/assistant row — reports `summary_created = true`: the cadence check
runs after the user turn is persisted but before the assistant turn is,
so it always sees an odd count (1, 3, ..., 19), never one divisible by
the threshold 20. -/
theorem claim3_counterexample :
    (runTurns (fun _ => "ok") "P" (List.replicate 10 "hello") initEngine).fst.map
        (fun r => r.summary_created) = List.replicate 10 false
      ∧ user_assistant_count
          (runTurns (fun _ => "ok") "P" (List.replicate 10 "hello") initEngine).snd.db
        = 20 := by
  have h0 : user_assistant_count initEngine.db % 2 = 0 := rfl
  have h := runTurns_no_summary (fun _ => "ok") "P" (List.replicate 10 "hello")
    initEngine h0
  constructor
  · rw [List.eq_replicate_iff]
    constructor
    · rw [List.length_map, runTurns_length]
      simp
    · intro b hb
      simp only [List.mem_map] at hb
      obtain ⟨r, hr, hrb⟩ := hb
      rw [← hrb]
      exact h.1 r hr
  · rw [h.2]
    have hinit : user_assistant_count initEngine.db = 0 := rfl
    rw [hinit]
    simp

/-- Claim C3, amended.  The enhanced pipeline sets `summary_created = true`
exactly when the user+assistant row count *including the just-persisted
user turn but not the upcoming assistant reply* is positive and divisible
by the threshold 20.  In a fully successful conversation that count is odd
on every turn (the k-th turn checks 2k-1), so `summary_created` is false
on every turn of any run from an empty conversation — in particular on the
turn that brings the count to 20 and throughout turns 1–39; the cadence can
only ever fire after a parity perturbation such as a failed turn that
persisted a user message without an assistant reply. -/
theorem claim3_amended (gen : List Message → String) (persona : String)
    (inputs : List String) (st : EngineState)
    (heven : user_assistant_count st.db % 2 = 0) :
    (∀ (gen' : List Message → String) (persona' u : String) (st' : EngineState),
        (process_message_enhanced gen' persona' u st').fst.summary_created
          = (should_summarize (create_message ⟨"user", u⟩ st'.db)
              && decide (get_messages_for_summarization
                  (create_message ⟨"user", u⟩ st'.db) ≠ [])))
    ∧ (∀ r ∈ (runTurns gen persona inputs st).fst, r.summary_created = false) := by
  refine ⟨fun gen' persona' u st' => (enhanced_result gen' persona' u st').2.1, ?_⟩
  exact (runTurns_no_summary gen persona inputs st heven).1

/-! ## Claims C2 and C10: the validation boundary -/

theorem dropWhile_replicate_a (n : Nat) :
    List.dropWhile isPySpace (List.replicate n 'a') = List.replicate n 'a' := by
  cases n with
  | zero => simp
  | succ m =>
    rw [List.replicate_succ, List.dropWhile_cons]
    simp [isPySpace]

theorem pyStrip_replicate_a (n : Nat) :
    pyStrip (String.mk (List.replicate n 'a')) = String.mk (List.replicate n 'a') := by
  unfold pyStrip
  rw [show (String.mk (List.replicate n 'a')).data = List.replicate n 'a' from rfl,
    dropWhile_replicate_a, List.reverse_replicate, dropWhile_replicate_a,
    List.reverse_replicate]

/-- The 2001-character input used against the enhanced pipeline. -/
def longInput : String := String.mk (List.replicate 2001 'a')

/-- The 2000-character input at the acceptance boundary. -/
def boundaryInput : String := String.mk (List.replicate 2000 'a')

theorem length_replicate_a (n : Nat) :
    (String.mk (List.replicate n 'a')).length = n := by
  simp [String.length]

theorem mk_replicate_a_ne_empty (n : Nat) (hn : n ≠ 0) :
    String.mk (List.replicate n 'a') ≠ "" := by
  intro h
  have : (String.mk (List.replicate n 'a')).length = ("" : String).length := by rw [h]
  rw [length_replicate_a] at this
  simp [String.length] at this
  exact hn this

/-- Claim C2, counterexample.  An input of 2001 characters is not rejected
by the enhanced per-turn pipeline: `process_message_enhanced` never calls
`validate_input` — it persists the user turn unconditionally, returns
`success = true`, and two message rows (the oversized user turn and the
assistant reply) are appended to the previously empty store. -/
theorem claim2_counterexample :
    longInput.length = 2001
      ∧ validate_input longInput = false
      ∧ (process_message_enhanced (fun _ => "ok") "P" longInput initEngine).fst.success
          = true
      ∧ (process_message_enhanced (fun _ => "ok") "P" longInput initEngine).snd.db.msgs.length
          = 2 := by
  refine ⟨length_replicate_a 2001, ?_, (enhanced_result _ _ _ _).1, ?_⟩
  · have hne : longInput ≠ "" := mk_replicate_a_ne_empty 2001 (by omega)
    have hstrip : pyStrip longInput ≠ "" := by
      rw [longInput, pyStrip_replicate_a]
      exact hne
    have hlen : 2000 < longInput.length := by
      rw [show longInput.length = 2001 from length_replicate_a 2001]
      omega
    simp [validate_input, hne, hstrip, hlen]
  · rw [enhanced_msgs]
    have hinit : initEngine.db.msgs = [] := rfl
    rw [hinit]
    simp

/-- Claim C2, amended.  The validation boundary with atomicity holds for
the baseline `MessageProcessor.process_message`: `validate_input` accepts a
2000-character input (with non-whitespace content), rejects the empty
string and any 2001-character input, and a rejected input returns the
failure dict with the store untouched — the persistence append is never
called.  The enhanced `process_message_enhanced` pipeline, however,
performs no input validation at all: for any input whatsoever (including a
rejected 2001-character one) it persists the user turn and an assistant
turn and reports success. -/
theorem claim2_amended (gen : List Message → String) (persona : String)
    (db : Db) (st : EngineState) (s t : String)
    (h2000 : s.length = 2000) (hstrip : pyStrip s ≠ "")
    (ht : t.length = 2001) :
    validate_input s = true
    ∧ validate_input "" = false
    ∧ validate_input t = false
    ∧ (∀ u : String, validate_input u = false →
        process_message gen persona u db = (invalidInputResult, db))
    ∧ (process_message_enhanced gen persona t st).fst.success = true
    ∧ (process_message_enhanced gen persona t st).snd.db.msgs.length
        = st.db.msgs.length + 2 := by
  have hreject : ∀ u : String, validate_input u = false →
      process_message gen persona u db = (invalidInputResult, db) := by
    intro u hu
    simp [process_message, hu]
  refine ⟨?_, by decide, ?_, hreject, (enhanced_result _ _ _ _).1, ?_⟩
  · have hne : s ≠ "" := by
      intro h
      rw [h] at h2000
      simp [String.length] at h2000
    have hlen : ¬ 2000 < s.length := by omega
    simp [validate_input, hne, hstrip, hlen]
  · by_cases hfirst : t = "" ∨ pyStrip t = ""
    · simp [validate_input, hfirst]
    · have hlen : 2000 < t.length := by omega
      simp [validate_input, hfirst, hlen]
  · rw [enhanced_msgs]
    simp

theorem dropWhile_all_space (l : List Char)
    (h : ∀ c ∈ l, isPySpace c = true) : List.dropWhile isPySpace l = [] := by
  induction l with
  | nil => simp
  | cons c t ih =>
    rw [List.dropWhile_cons, if_pos (h c (by simp))]
    exact ih (fun x hx => h x (by simp [hx]))

theorem pyStrip_all_space (s : String)
    (h : ∀ c ∈ s.data, isPySpace c = true) : pyStrip s = "" := by
  unfold pyStrip
  rw [dropWhile_all_space s.data h]
  rfl

/-- Claim C10 (implicit: whitespace-only rejection).  `validate_input`
rejects every input whose characters are all Python whitespace (including
the empty string): `user_input.strip()` is empty, so the first check fails
the input, and `process_message` returns the failure dict without any
persistence side effect — the store is returned untouched, so the append
collaborator is never called. -/
theorem claim10_whitespace_rejected (gen : List Message → String)
    (persona : String) (db : Db) (s : String)
    (hws : ∀ c ∈ s.data, isPySpace c = true) :
    validate_input s = false
    ∧ process_message gen persona s db = (invalidInputResult, db) := by
  have hstrip : pyStrip s = "" := pyStrip_all_space s hws
  have hval : validate_input s = false := by
    simp [validate_input, hstrip]
  exact ⟨hval, by simp [process_message, hval]⟩

/-! ## Witnesses: concrete instantiations of the hypothesis-bearing
claim theorems -/

/-- A one-entry cache state with counters, for the claim C4 witness. -/
def cacheW : CacheState :=
  { entries := [("a", { value := "x", expires := 5 })],
    hits := 3, misses := 4, default_ttl := 3600 }

/-- Witness for claim C4 at a concrete state, key and ttl. -/
theorem claim4_cache_ttl_witness :
    (cacheGet none 100 "a" (cacheSet 100 "a" "v" (some 7) cacheW).snd).fst = some "v"
    ∧ (cacheGet none 9 "a" cacheW).fst = none := by
  have h := claim4_cache_ttl cacheW "a" "v" (some 7) 100 9 ⟨"x", 5⟩
    (by decide) (by decide) (by decide) (by decide)
  exact ⟨h.1, h.2.1.1⟩

/-- Witness for claim C9 (amended) at a concrete state and store. -/
theorem claim9_amended_witness :
    (cacheGet none 0 "k" cacheWithK).fst = some "v"
    ∧ (cacheGet (some (fun _ => .ok none)) 0 "k" cacheWithK).fst = some "v" := by
  have h := claim9_amended cacheWithK "k" ⟨"v", 100⟩ 0 (fun _ => .ok none)
    (by decide) (by decide)
  exact ⟨h.1, h.2.1 rfl⟩

/-- Witness for claim C1 (amended): two sequential calls five seconds
apart, fresh cache, nonempty response — exactly one generation. -/
theorem claim1_amended_witness :
    (let s0 : GcrState := { cache := emptyCache, genCount := 0 }
     let (r1, s1) := generate_cached_response (fun _ => "resp") 0
       (create_messages_hash [Message.mk "user" "hello"])
       [Message.mk "user" "hello"] s0
     let (r2, s2) := generate_cached_response (fun _ => "resp") 5
       (create_messages_hash [Message.mk "user" "hello"])
       [Message.mk "user" "hello"] s1
     r1 = "resp" ∧ r2 = "resp" ∧ s1.genCount = 0 + 1 ∧ s2.genCount = 0 + 1) :=
  claim1_amended (fun _ => "resp") [Message.mk "user" "hello"] 0 5 emptyCache 0
    (by decide) (by decide) (by decide)

/-- Witness for claim C2 (amended): the boundary inputs of 2000 and 2001
characters, including the basic processor's no-side-effect rejection of the
empty string. -/
theorem claim2_amended_witness :
    validate_input boundaryInput = true
    ∧ process_message (fun _ => "ok") "P" "" { msgs := [], summaries := [] }
        = (invalidInputResult, { msgs := [], summaries := [] })
    ∧ (process_message_enhanced (fun _ => "ok") "P" longInput initEngine).snd.db.msgs.length
        = initEngine.db.msgs.length + 2 := by
  have h := claim2_amended (fun _ => "ok") "P" { msgs := [], summaries := [] }
    initEngine boundaryInput longInput (length_replicate_a 2000)
    (by
      rw [show pyStrip boundaryInput = boundaryInput from pyStrip_replicate_a 2000]
      exact mk_replicate_a_ne_empty 2000 (by omega))
    (length_replicate_a 2001)
  exact ⟨h.1, h.2.2.2.1 "" h.2.1, h.2.2.2.2.2⟩

/-- Witness for claim C3 (amended): the single turn of a one-input run from
the empty conversation reports `summary_created = false`. -/
theorem claim3_amended_witness :
    (process_message_enhanced (fun _ => "x") "P" "a" initEngine).fst.summary_created
      = false := by
  have h := claim3_amended (fun _ => "x") "P" ["a"] initEngine rfl
  have hmem : (process_message_enhanced (fun _ => "x") "P" "a" initEngine).fst
      ∈ (runTurns (fun _ => "x") "P" ["a"] initEngine).fst := by
    simp [runTurns]
  exact h.2 _ hmem

/-- Witness for claim C5 at a concrete balanced trace of one failing and
one successful scope. -/
theorem claim5_metrics_witness :
    (measure_request (.error "boom") 1 initMetrics).fst = .error "boom"
    ∧ (applyTrace [MEvent.enter, MEvent.enter, MEvent.exitErr 1, MEvent.exitOk 2]
        initMetrics).total_requests
      = countEnters [MEvent.enter, MEvent.enter, MEvent.exitErr 1, MEvent.exitOk 2]
    ∧ (applyTrace [MEvent.enter, MEvent.enter, MEvent.exitErr 1, MEvent.exitOk 2]
        initMetrics).concurrent_requests = 0 := by
  have h := claim5_metrics_measurement (.error "boom") 1 initMetrics
    [MEvent.enter, MEvent.enter, MEvent.exitErr 1, MEvent.exitOk 2]
    (by decide) (by decide)
  exact ⟨h.1.1, h.2.1, h.2.2.2⟩

/-- A one-sample monitor for the claim C6 (amended) witness: with a single
sample the interpolation position `0.95 * (n - 1)` is the integer 0. -/
def metricsOne : Metrics :=
  { response_times := [5], window_size := 1000, error_count := 1,
    total_requests := 3, concurrent_requests := 0, start_time := 0 }

/-- Witness for claim C6 (amended) at the one-sample monitor. -/
theorem claim6_amended_witness :
    (get_metrics 0 metricsOne).latency_ms
      = some (pyRound2 (listMean metricsOne.response_times * 1000),
              pyRound2 ((sortQ metricsOne.response_times).getD 0 0 * 1000)) :=
  (claim6_amended metricsOne 0 0 (by decide) (by decide)).2.2

/-- A six-message history and its five-message tail, for the claim C7
window-determinism witness. -/
def winA : List Message :=
  [⟨"user", "a"⟩, ⟨"user", "b"⟩, ⟨"user", "c"⟩, ⟨"user", "d"⟩,
   ⟨"user", "e"⟩, ⟨"user", "f"⟩]

/-- The last five messages of `winA`. -/
def winB : List Message :=
  [⟨"user", "b"⟩, ⟨"user", "c"⟩, ⟨"user", "d"⟩, ⟨"user", "e"⟩, ⟨"user", "f"⟩]

/-- Witness for claim C7: two histories with the same last-five window are
classified identically. -/
theorem claim7_phase_witness :
    analyze_conversation_phase winA = analyze_conversation_phase winB :=
  claim7_phase_classification.1 winA winB (by decide)

/-- Witness for claim C10 at a concrete whitespace-only input. -/
theorem claim10_whitespace_witness :
    validate_input " \t" = false
    ∧ process_message (fun _ => "ok") "P" " \t" { msgs := [], summaries := [] }
        = (invalidInputResult, { msgs := [], summaries := [] }) :=
  claim10_whitespace_rejected (fun _ => "ok") "P" { msgs := [], summaries := [] }
    " \t" (by decide)
